import Mathlib

/-!
# Inspectron: verification of the defect-lifecycle and hand-off core

Shallow embedding of the core data model and operations of the Inspectron
inspection/production tool, together with theorems settling the frozen
claims about its specification.

Sources embedded (Python):
* `handover_database.py` — the two hand-off tables and their operations
  (`HandoverDB.add_quality_handover`, `HandoverDB.update_production_status`,
  `HandoverDB.add_production_handback`, `HandoverDB.is_in_rework_queue`).
* `quality.py` — `get_next_sr_no`, `transform_point_for_rotation`,
  `find_row_by_sr_or_text`, `get_status_from_interphase`,
  `sync_manager_stats_only` (status/stats slice), `log_error_direct`
  (punch append) and `close_punch`.
* `production.py` — `getnextsr`, `transform_point_for_rotation`.
* `manager.py` — its own `get_status_from_interphase` (lowest-rule variant,
  not needed by the claims settled here).

Cell values read from a workbook may be numbers or strings (openpyxl typed
cells); `CellVal` mirrors that.  SQLite rows become Lean structures, a table
is a `List` of rows in insertion (AUTOINCREMENT id) order, and the impure
`datetime.now()` timestamps become explicit `now` parameters.
-/

namespace Inspectron

/-! ## Python string primitives

`str.strip()`, `str.lower()`, `int(str)` and `str.split(sep)` as structural
functions over the character list (ASCII subset, which is what the workbook
data uses). -/

/-- ASCII whitespace, as stripped by Python `str.strip()` and `int()`. -/
def isPyWhitespace (c : Char) : Bool :=
  c == ' ' || c == '\t' || c == '\n' || c == '\r'

/-- Python `str.strip()`. -/
def pyStrip (s : String) : String :=
  String.mk
    (((s.toList.dropWhile isPyWhitespace).reverse.dropWhile
      isPyWhitespace).reverse)

/-- Python `str.lower()`. -/
def pyLower (s : String) : String :=
  String.mk (s.toList.map Char.toLower)

/-- Parse a nonempty all-digit character list as a natural number. -/
def digitsToNat? (cs : List Char) : Option Nat :=
  match cs with
  | [] => none
  | _ =>
    cs.foldl
      (fun acc c => acc.bind (fun n =>
        if c.isDigit then some (n * 10 + (c.toNat - 48)) else none))
      (some 0)

/-- Python `int(str)`: optional surrounding whitespace, optional sign,
decimal digits; `none` models the `ValueError` branch. -/
def pyInt (s : String) : Option Int :=
  match (pyStrip s).toList with
  | [] => none
  | c :: rest =>
    if c == '-' then (digitsToNat? rest).map (fun n => -(n : Int))
    else if c == '+' then (digitsToNat? rest).map (fun n => (n : Int))
    else (digitsToNat? (c :: rest)).map (fun n => (n : Int))

/-- Python `str.split(sep)` for a one-character separator. -/
def splitOnChar (c : Char) : List Char → List (List Char)
  | [] => [[]]
  | x :: rest =>
    match splitOnChar c rest with
    | [] => [[x]]
    | h :: t => if x == c then [] :: h :: t else (x :: h) :: t

/-- A workbook cell value as returned by openpyxl: an integer or a string.
(`none` at the call sites stands for an empty cell.) -/
inductive CellVal where
  | i (n : Int)
  | s (str : String)
deriving DecidableEq, Repr

/-- Python `str(cell)`. -/
def CellVal.pyStr : CellVal → String
  | .i n => toString n
  | .s str => str

/-- Python `int(cell)`: the value itself for an integer cell, a parse of the
text for a string cell; `none` models the `ValueError` branch. -/
def CellVal.pyInt? : CellVal → Option Int
  | .i n => some n
  | .s str => pyInt str

/-- Python truthiness of a cell value (`0` and `""` are falsy). -/
def CellVal.truthy : CellVal → Bool
  | .i n => n != 0
  | .s str => str != ""

/-! ## Hand-off database (`handover_database.py`)

One row of the `quality_to_production` (forward) table.  Column order and
defaults follow the `CREATE TABLE` statement; `TEXT` columns that the insert
never sets are `Option String` (SQL `NULL`). -/

structure QtpRow where
  cabinet_id : String
  project_name : String
  sales_order_no : String
  pdf_path : String
  excel_path : String
  session_path : String
  total_punches : Int
  open_punches : Int
  closed_punches : Int
  handed_over_by : String
  handed_over_date : String
  status : String
  received_by : Option String
  received_date : Option String
  completed_by : Option String
  completed_date : Option String
  updated_at : String
deriving DecidableEq, Repr

/-- One row of the `production_to_quality` (backward) table. -/
structure PtqRow where
  cabinet_id : String
  project_name : String
  sales_order_no : String
  pdf_path : String
  excel_path : String
  session_path : String
  rework_completed_by : String
  rework_completed_date : String
  production_remarks : String
  status : String
  verified_by : Option String
  verified_date : Option String
  verification_notes : Option String
  updated_at : String
deriving DecidableEq, Repr

/-- The two hand-off tables, rows in insertion order. -/
structure HandoverDB where
  quality_to_production : List QtpRow
  production_to_quality : List PtqRow
deriving DecidableEq, Repr

/-- The empty database (both tables freshly created). -/
def HandoverDB.empty : HandoverDB := ⟨[], []⟩

/-- Payload of `add_quality_handover` (the `handover_data` dict with its
`.get` defaults already applied). -/
structure HandoverData where
  cabinet_id : String
  project_name : String
  sales_order_no : String
  pdf_path : String
  excel_path : String
  session_path : String
  total_punches : Int
  open_punches : Int
  closed_punches : Int
  handed_over_by : String
  handed_over_date : String
deriving DecidableEq, Repr

/-- Payload of `add_production_handback` (the `handback_data` dict with its
`.get` defaults already applied). -/
structure HandbackData where
  cabinet_id : String
  project_name : String
  sales_order_no : String
  pdf_path : String
  excel_path : String
  session_path : String
  rework_completed_by : String
  rework_completed_date : String
  production_remarks : String
deriving DecidableEq, Repr

/-- The existence check of `add_quality_handover`:
`status IN ('pending', 'in_progress')`. -/
def qtpNonTerminal (s : String) : Bool :=
  s == "pending" || s == "in_progress"

/-- The forward row inserted by `add_quality_handover` (`INSERT INTO
quality_to_production ... VALUES (..., 'pending')`). -/
def qualityRow (d : HandoverData) (now : String) : QtpRow :=
  { cabinet_id := d.cabinet_id
    project_name := d.project_name
    sales_order_no := d.sales_order_no
    pdf_path := d.pdf_path
    excel_path := d.excel_path
    session_path := d.session_path
    total_punches := d.total_punches
    open_punches := d.open_punches
    closed_punches := d.closed_punches
    handed_over_by := d.handed_over_by
    handed_over_date := d.handed_over_date
    status := "pending"
    received_by := none
    received_date := none
    completed_by := none
    completed_date := none
    updated_at := now }

/-- `HandoverDB.add_quality_handover`: refuses (returns `false`, no insert)
when a row for the cabinet is `pending` or `in_progress`, otherwise inserts a
new forward row with status `pending`. -/
def add_quality_handover (db : HandoverDB) (d : HandoverData) (now : String) :
    Bool × HandoverDB :=
  if db.quality_to_production.any
      (fun r => r.cabinet_id == d.cabinet_id && qtpNonTerminal r.status) then
    (false, db)
  else
    (true,
      { db with quality_to_production :=
          db.quality_to_production ++ [qualityRow d now] })

/-- The per-row effect of `update_production_status` for a matching row:
`in_progress` sets `received_by`/`received_date` through `COALESCE` (only if
previously `NULL`), `completed` overwrites `completed_by`/`completed_date`
unconditionally, any other status only rewrites `status` and `updated_at`. -/
def applyProductionStatus (status : String) (user : Option String)
    (now : String) (r : QtpRow) : QtpRow :=
  if status == "in_progress" then
    { r with status := status
             received_by := r.received_by.orElse (fun _ => user)
             received_date := r.received_date.orElse (fun _ => some now)
             updated_at := now }
  else if status == "completed" then
    { r with status := status
             completed_by := user
             completed_date := some now
             updated_at := now }
  else
    { r with status := status, updated_at := now }

/-- `HandoverDB.update_production_status`: updates every forward row whose
`cabinet_id` matches (the SQL `WHERE cabinet_id = ?` has no status filter)
and returns `true` iff at least one row was affected (`cursor.rowcount > 0`). -/
def update_production_status (db : HandoverDB) (cabinet_id status : String)
    (user : Option String) (now : String) : Bool × HandoverDB :=
  let affected := (db.quality_to_production.filter
      (fun r => r.cabinet_id == cabinet_id)).length
  let qtp := db.quality_to_production.map
    (fun r => if r.cabinet_id == cabinet_id then
        applyProductionStatus status user now r
      else r)
  (decide (0 < affected), { db with quality_to_production := qtp })

/-- The backward row inserted by `add_production_handback` (`INSERT INTO
production_to_quality ... VALUES (..., 'pending')`). -/
def handbackRow (d : HandbackData) (now : String) : PtqRow :=
  { cabinet_id := d.cabinet_id
    project_name := d.project_name
    sales_order_no := d.sales_order_no
    pdf_path := d.pdf_path
    excel_path := d.excel_path
    session_path := d.session_path
    rework_completed_by := d.rework_completed_by
    rework_completed_date := d.rework_completed_date
    production_remarks := d.production_remarks
    status := "pending"
    verified_by := none
    verified_date := none
    verification_notes := none
    updated_at := now }

/-- `HandoverDB.add_production_handback`: unconditionally marks every forward
row for the cabinet `completed`, inserts a backward row with status `pending`,
and returns `true`.  There is no existence check on either table. -/
def add_production_handback (db : HandoverDB) (d : HandbackData)
    (now : String) : Bool × HandoverDB :=
  let qtp := db.quality_to_production.map
    (fun r => if r.cabinet_id == d.cabinet_id then
        { r with status := "completed", updated_at := now }
      else r)
  (true,
    { quality_to_production := qtp
      production_to_quality :=
        db.production_to_quality ++ [handbackRow d now] })

/-- `HandoverDB.is_in_rework_queue`: is some backward row for the cabinet
still `pending`? -/
def is_in_rework_queue (db : HandoverDB) (cabinet_id : String) : Bool :=
  db.production_to_quality.any
    (fun r => r.cabinet_id == cabinet_id && r.status == "pending")

/-- An insert operation on the hand-off database, for stating invariants over
arbitrary operation sequences. -/
inductive HandoffOp where
  | quality (d : HandoverData) (now : String)
  | handback (d : HandbackData) (now : String)

/-- Run one insert operation (discarding the returned Boolean). -/
def HandoffOp.apply (db : HandoverDB) : HandoffOp → HandoverDB
  | .quality d now => (add_quality_handover db d now).2
  | .handback d now => (add_production_handback db d now).2

/-- Run a sequence of insert operations from the empty database. -/
def runHandoffOps (ops : List HandoffOp) : HandoverDB :=
  ops.foldl HandoffOp.apply HandoverDB.empty

/-- Rows of a forward table that are in a non-terminal status for a given
cabinet. -/
def qtpInFlight (rows : List QtpRow) (cab : String) : List QtpRow :=
  rows.filter (fun r => r.cabinet_id == cab && qtpNonTerminal r.status)

/-- Rows of a backward table that are in a non-terminal status
(`pending` or `in_progress`) for a given cabinet. -/
def ptqInFlight (rows : List PtqRow) (cab : String) : List PtqRow :=
  rows.filter (fun r => r.cabinet_id == cab &&
    (r.status == "pending" || r.status == "in_progress"))

/-! ## Next serial number (`quality.get_next_sr_no`, `production.getnextsr`)

Both scan the serial-number column from a fixed start row while
`row_num <= ws.max_row + 5`, break at the first empty cell, keep the last
successfully parsed integer in `last_sr_no` (`except: pass` skips unparsable
cells), and return `last_sr_no + 1` with `last_sr_no` initialised to `0`. -/

/-- The shared `while` loop body of `get_next_sr_no` / `getnextsr`.
`cells` is the serial-number column (`None` = empty cell), `maxRow` models
`ws.max_row`. -/
def nextSrLoop (cells : Nat → Option CellVal) (maxRow row : Nat)
    (last : Int) : Int :=
  if row ≤ maxRow + 5 then
    match cells row with
    | none => last + 1
    | some v =>
      nextSrLoop cells maxRow (row + 1)
        (match v.pyInt? with
         | some n => n
         | none => last)
  else last + 1
termination_by maxRow + 6 - row
decreasing_by omega

/-- `quality.py get_next_sr_no`: the scan starts at `row_num = 8`. -/
def get_next_sr_no (cells : Nat → Option CellVal) (maxRow : Nat) : Int :=
  nextSrLoop cells maxRow 8 0

/-- `production.py getnextsr`: the scan starts at `row_num = 9`. -/
def getnextsr (cells : Nat → Option CellVal) (maxRow : Nat) : Int :=
  nextSrLoop cells maxRow 9 0

/-- A serial-number column holding the integers of `L` in consecutive rows
beginning at row `start`, empty elsewhere. -/
def srColOf (start : Nat) (L : List Int) : Nat → Option CellVal :=
  fun r => if r < start then none else (L.get? (r - start)).map CellVal.i

/-! ## Page-rotation transform (`transform_point_for_rotation`)

Identical in `quality.py` and `production.py`.  Coordinates are embedded as
rationals; `r` is `page.rotation`, `w`/`h` are `page.rect.width/height`. -/

/-- `transform_point_for_rotation` (per-point transform for the four cardinal
rotations; any other rotation value falls through to the identity). -/
def transform_point_for_rotation (r : Int) (w h : ℚ) (p : ℚ × ℚ) : ℚ × ℚ :=
  if r = 0 then (p.1, p.2)
  else if r = 90 then (p.2, w - p.1)
  else if r = 180 then (w - p.1, h - p.2)
  else if r = 270 then (h - p.2, p.1)
  else (p.1, p.2)

/-- The geometrically inverse rotation (90 ↔ 270, 0 and 180 self-inverse). -/
def inverseRotation (r : Int) : Int :=
  if r = 90 then 270 else if r = 270 then 90 else r

/-! ## Annotation binder (`quality.find_row_by_sr_or_text`)

The punch sheet is a list of rows (serial cell, description cell), the head
standing at sheet row 8.  `difflib.SequenceMatcher(...).ratio()` is external
library code and is passed in as the similarity function `simFn`. -/

/-- One scanned row of the punch sheet: the serial-number cell
(`punch_cols['sr_no']`) and the description cell (`punch_cols['desc']`). -/
structure SheetRow where
  sr : Option CellVal
  desc : Option CellVal
deriving DecidableEq, Repr

/-- The serial comparison of the first loop:
`int(cell) == int(sr_no)`, falling back to
`str(cell).strip() == str(sr_no).strip()` when either `int()` raises. -/
def srMatches (cell query : CellVal) : Bool :=
  match cell.pyInt?, query.pyInt? with
  | some a, some b => a == b
  | _, _ => pyStrip cell.pyStr == pyStrip query.pyStr

/-- First loop of `find_row_by_sr_or_text`: scan for an exact serial match
from row 8; a row with both cells empty breaks the scan, a row with an empty
serial but a description is skipped (no row cap check on that path), and
after a failed comparison the scan stops once `row > 2000`. -/
def srLoop (query : CellVal) : List SheetRow → Nat → Option Nat
  | [], _ => none
  | r :: rest, row =>
    match r.sr with
    | none => if r.desc.isNone then none else srLoop query rest (row + 1)
    | some c =>
      if srMatches c query then some row
      else if row + 1 > 2000 then none
      else srLoop query rest (row + 1)

/-- Second loop of `find_row_by_sr_or_text`: track the best similarity
(strict improvement only, so the first row attaining the maximum wins) over
the description cells, rows capped at 2000. -/
def fuzzyLoop (simFn : String → String → ℚ) (q : String) :
    List SheetRow → Nat → Option Nat → ℚ → Option Nat × ℚ
  | [], _, bestRow, bestSim => (bestRow, bestSim)
  | r :: rest, row, bestRow, bestSim =>
    match r.desc with
    | none =>
      if row > 2000 then (bestRow, bestSim)
      else fuzzyLoop simFn q rest (row + 1) bestRow bestSim
    | some txt =>
      let sim := simFn (pyLower (pyStrip q)) (pyLower (pyStrip txt.pyStr))
      let best2 := if bestSim < sim then (some row, sim) else (bestRow, bestSim)
      if row + 1 > 2000 then best2
      else fuzzyLoop simFn q rest (row + 1) best2.1 best2.2

/-- `find_row_by_sr_or_text(sr_no, punch_text, min_ratio=0.60)`: exact serial
match first (`sr_exact`), otherwise the best fuzzy description match, accepted
only when a best row exists and its similarity reaches the threshold
(`fuzzy_text`), else no row. -/
def find_row_by_sr_or_text (simFn : String → String → ℚ)
    (rows : List SheetRow) (sr_no : CellVal) (punch_text : String)
    (minSim : ℚ) : Option Nat × ℚ × Option String :=
  match srLoop sr_no rows 8 with
  | some row => (some row, 1, some "sr_exact")
  | none =>
    let best := fuzzyLoop simFn punch_text rows 8 none 0
    if best.1.isSome ∧ minSim ≤ best.2 then (best.1, best.2, some "fuzzy_text")
    else (none, best.2, none)

/-- The similarity score the second loop computes for a row (used to state
the selection property). -/
def descScore (simFn : String → String → ℚ) (q : String) (r : SheetRow) : ℚ :=
  simFn (pyLower (pyStrip q)) (pyLower (pyStrip (r.desc.getD (.s "")).pyStr))

/-- Whether a row's serial cell matches the queried serial (the first-loop
comparison, `false` for an empty serial cell). -/
def srMatchesRow (query : CellVal) (r : SheetRow) : Bool :=
  match r.sr with
  | some c => srMatches c query
  | none => false

/-! ## Interphase status inference (`quality.get_status_from_interphase`)

The Interphase sheet is embedded as the list of its data rows (column B =
reference number, column D = status), corresponding to sheet rows 11 through
`ws.max_row`. -/

/-- One data row of the Interphase sheet. -/
structure InterRow where
  refB : Option CellVal
  statusD : Option CellVal
deriving DecidableEq, Repr

/-- Reference-number parsing: range formats like `1-2` take the last number
(`ref_str.split('-')[-1]`), otherwise the whole string; `int()` failure
(`ValueError`) yields `none`. -/
def parseRefNum (v : CellVal) : Option Int :=
  let cs := (pyStrip v.pyStr).toList
  if cs.any (fun x => x == '-') then
    pyInt (String.mk ((splitOnChar '-' cs).getLastD []))
  else pyInt (String.mk cs)

/-- The completed reference number contributed by a row, if any: the status
cell must be truthy with nonempty stripped text, the reference cell must be
truthy, and the reference must parse. -/
def interCompletedRef (row : InterRow) : Option Int :=
  match row.statusD with
  | none => none
  | some sv =>
    if sv.truthy && pyStrip sv.pyStr != "" then
      match row.refB with
      | none => none
      | some rv => if rv.truthy then parseRefNum rv else none
    else none

/-- The `highest_ref_num` accumulation loop (strict improvement from 0). -/
def interphaseHighest (rows : List InterRow) : Int :=
  rows.foldl
    (fun h r =>
      match interCompletedRef r with
      | some n => if h < n then n else h
      | none => h) 0

/-- The final band mapping of `get_status_from_interphase`. -/
def refBand (n : Int) : String :=
  if n = 0 then "quality_inspection"
  else if 1 ≤ n ∧ n ≤ 2 then "project_info_sheet"
  else if 3 ≤ n ∧ n ≤ 9 then "mechanical_assembly"
  else if 10 ≤ n ∧ n ≤ 18 then "component_assembly"
  else if 19 ≤ n ∧ n ≤ 26 then "final_assembly"
  else if 27 ≤ n then "final_documentation"
  else "quality_inspection"

/-- `quality.py get_status_from_interphase` on a present Interphase sheet:
band of the highest completed reference number. -/
def get_status_from_interphase (rows : List InterRow) : String :=
  refBand (interphaseHighest rows)

/-- The list of completed reference numbers of a sheet, in row order. -/
def completedRefs (rows : List InterRow) : List Int :=
  rows.filterMap interCompletedRef

/-! ## Aggregate sync (`quality.sync_manager_stats_only`)

The `cabinets` table is a list of rows; the recomputed counts, the
`update_status_from_interphase` flag and the (possibly absent) result of
`get_status_from_interphase` are inputs to the database-update slice. -/

/-- One row of the `cabinets` aggregate table (the columns this sync touches
or preserves). -/
structure CabinetRow where
  cabinet_id : String
  project_name : String
  sales_order_no : String
  total_pages : Int
  annotated_pages : Int
  total_punches : Int
  open_punches : Int
  implemented_punches : Int
  closed_punches : Int
  status : String
  created_date : String
  last_updated : String
  storage_location : Option String
  excel_path : String
deriving DecidableEq, Repr

/-- The freshly recomputed statistics passed into the update. -/
structure SyncStats where
  total_pages : Int
  annotated_pages : Int
  total_punches : Int
  open_punches : Int
  implemented_punches : Int
  closed_punches : Int
deriving DecidableEq, Repr

/-- The `workflow_statuses` list from `sync_manager_stats_only`: only these
statuses may be overwritten by Interphase inference. -/
def workflow_statuses : List String :=
  ["project_info_sheet", "mechanical_assembly", "component_assembly",
   "final_assembly", "final_documentation", "quality_inspection"]

/-- The explicit-transition statuses set only by hand-off actions
(`handed_to_production` and `being_closed_by_quality` at the
`update_status_and_sync` call sites in `quality.py`, plus `in_progress` and
`closed` from the hand-off tables). -/
def explicit_statuses : List String :=
  ["handed_to_production", "in_progress", "being_closed_by_quality", "closed"]

/-- The status written back for an existing cabinet: Interphase inference
replaces the current status only when the flag is set, the current status is
a workflow status, and the inference produced a truthy (nonempty) result. -/
def syncNewStatus (flag : Bool) (cur : String) (inter : Option String) :
    String :=
  if flag && workflow_statuses.contains cur then
    match inter with
    | some s => if s == "" then cur else s
    | none => cur
  else cur

/-- The `UPDATE cabinets SET ...` effect on one row: counts, status,
timestamp, paths. -/
def applySyncStats (st : SyncStats) (status now excel : String)
    (loc : Option String) (r : CabinetRow) : CabinetRow :=
  { r with
    total_pages := st.total_pages
    annotated_pages := st.annotated_pages
    total_punches := st.total_punches
    open_punches := st.open_punches
    implemented_punches := st.implemented_punches
    closed_punches := st.closed_punches
    status := status
    last_updated := now
    excel_path := excel
    storage_location := loc }

/-- The database-update slice of `sync_manager_stats_only`: update the
existing cabinet row (status per `syncNewStatus`), or insert a fresh row
whose initial status defaults to `quality_inspection`. -/
def sync_manager_stats_only (db : List CabinetRow)
    (cab project so : String) (st : SyncStats) (flag : Bool)
    (inter : Option String) (now excel : String) (loc : Option String) :
    List CabinetRow :=
  match db.find? (fun r => r.cabinet_id == cab) with
  | some row =>
    let newStatus := syncNewStatus flag row.status inter
    db.map (fun r =>
      if r.cabinet_id == cab then applySyncStats st newStatus now excel loc r
      else r)
  | none =>
    let initialStatus :=
      match inter with
      | some s => if s == "" then "quality_inspection" else s
      | none => "quality_inspection"
    db ++ [{ cabinet_id := cab
             project_name := project
             sales_order_no := so
             total_pages := st.total_pages
             annotated_pages := st.annotated_pages
             total_punches := st.total_punches
             open_punches := st.open_punches
             implemented_punches := st.implemented_punches
             closed_punches := st.closed_punches
             status := initialStatus
             created_date := now
             last_updated := now
             storage_location := loc
             excel_path := excel }]

/-! ## Punch append (`quality.log_error_direct`) and close (`close_punch`)

The punch sheet is the list of its rows, head at sheet row 8; a cell beyond
the written block reads as `None`. -/

/-- One row of the punch sheet (columns A through J). -/
structure PunchRow where
  sr : Option CellVal
  ref_no : Option CellVal
  desc : Option CellVal
  category : Option CellVal
  checked_name : Option CellVal
  checked_date : Option CellVal
  implemented_name : Option CellVal
  implemented_date : Option CellVal
  closed_name : Option CellVal
  closed_date : Option CellVal
deriving DecidableEq, Repr

/-- A row all of whose cells are empty. -/
def blankPunchRow : PunchRow :=
  ⟨none, none, none, none, none, none, none, none, none, none⟩

/-- The append path of `log_error_direct`: find the first row whose serial
cell is empty (row 8 + index), read the previous row's serial, assign
`int(prev_sr) + 1` (1 when there is no previous row or it does not parse),
and write serial, reference, description, category and checked actor/date
into that row.  Returns the updated sheet and the serial assigned. -/
def log_error_direct (rows : List PunchRow)
    (ref_no punch_text component_type uname date : String) :
    List PunchRow × Int :=
  let idx := rows.findIdx (fun r => r.sr.isNone)
  let prev_sr : Option CellVal :=
    if idx = 0 then none else (rows.get? (idx - 1)).bind (fun r => r.sr)
  let sr_no : Int :=
    match prev_sr with
    | none => 1
    | some v =>
      match v.pyInt? with
      | some n => n + 1
      | none => 1
  let target := rows.getD idx blankPunchRow
  let written :=
    { target with
      sr := some (.i sr_no)
      ref_no := some (.s ref_no)
      desc := some (.s punch_text)
      category := some (.s component_type)
      checked_name := some (.s uname)
      checked_date := some (.s date) }
  (if idx < rows.length then rows.set idx written else rows ++ [written],
   sr_no)

/-- `close_punch`: write the closing actor and date into an existing row;
the serial column is not touched. -/
def close_punch (rows : List PunchRow) (idx : Nat) (name date : String) :
    List PunchRow :=
  match rows.get? idx with
  | some r =>
    rows.set idx
      { r with closed_name := some (.s name), closed_date := some (.s date) }
  | none => rows

/-- An operation on the punch sheet, for stating the serial-number law over
arbitrary interleavings. -/
inductive PunchOp where
  | append (ref_no punch_text component_type uname date : String)
  | close (idx : Nat) (name date : String)

/-- Run one punch-sheet operation. -/
def PunchOp.apply (rows : List PunchRow) : PunchOp → List PunchRow
  | .append a b c d e => (log_error_direct rows a b c d e).1
  | .close i n d2 => close_punch rows i n d2

/-- Run a sequence of punch-sheet operations from an empty sheet. -/
def runPunchOps (ops : List PunchOp) : List PunchRow :=
  ops.foldl PunchOp.apply []

/-- The number of `append` operations in a sequence. -/
def countAppends (ops : List PunchOp) : Nat :=
  ops.countP (fun op => match op with | .append .. => true | _ => false)

/-! ## Concrete instances used by witnesses and counterexamples -/

/-- Concrete forward hand-off payload used by witnesses. -/
def hdW : HandoverData :=
  ⟨"CAB-1", "P1", "SO-7", "a.pdf", "a.xlsx", "a.json", 3, 2, 1, "alice",
   "2024-01-01"⟩

/-- Concrete backward hand-back payload used by witnesses and
counterexamples. -/
def hbCE : HandbackData :=
  ⟨"CAB-1", "P1", "SO-7", "a.pdf", "a.xlsx", "a.json", "bob", "2024-01-02",
   "done"⟩

/-- Concrete forward table with a single in-flight row for `CAB-1`. -/
def dbW : HandoverDB := ⟨[qualityRow hdW "t0"], []⟩

/-- Interphase sheet with reference numbers 1, 2 and 5 marked complete. -/
def sheet125 : List InterRow :=
  [⟨some (.s "1"), some (.s "OK")⟩, ⟨some (.s "2"), some (.s "OK")⟩,
   ⟨some (.s "5"), some (.s "NOK")⟩]

/-- Concrete punch-sheet block used by the binder witness. -/
def rowsW : List SheetRow :=
  [⟨some (.i 1), some (.s "door gap")⟩, ⟨some (.i 2), some (.s "paint")⟩]

/-- A concrete stand-in for the external similarity function. -/
def simFnW : String → String → ℚ := fun _ _ => 0

/-- Concrete aggregate row in an explicit-transition status. -/
def cabRowW : CabinetRow :=
  ⟨"CAB-1", "P1", "SO-7", 1, 1, 2, 1, 1, 0, "handed_to_production", "t0",
   "t0", none, "a.xlsx"⟩

/-- Concrete recomputed statistics. -/
def statsW : SyncStats := ⟨4, 2, 3, 1, 1, 1⟩

/-- The punch-sheet serial-column invariant: the serial cells hold exactly
`1, 2, ..., n` in order. -/
def srColumnOk (rows : List PunchRow) (n : Nat) : Prop :=
  rows.map (fun r => r.sr)
    = (List.range n).map (fun i => some (CellVal.i (Int.ofNat i + 1)))

/-! # Theorems -/

/-! ## Hand-off queue claims -/

theorem qtpNonTerminal_eq_true {s : String} :
    qtpNonTerminal s = true ↔ s = "pending" ∨ s = "in_progress" := by
  simp [qtpNonTerminal]

/-- C9: `add_production_handback` performs no existence check: it always
returns `true` and appends a backward row in status `pending` for the
cabinet (even when no forward row exists, and a second call in succession
appends a second one, so the in-flight count rises by two), and it sets
every forward row of the cabinet to `completed` unconditionally. -/
theorem c9_handback_unguarded (db : HandoverDB) (d : HandbackData)
    (t1 t2 : String) :
    (add_production_handback db d t1).1 = true ∧
    (add_production_handback db d t1).2.production_to_quality
      = db.production_to_quality ++ [handbackRow d t1] ∧
    (handbackRow d t1).status = "pending" ∧
    (handbackRow d t1).cabinet_id = d.cabinet_id ∧
    (∀ r ∈ (add_production_handback db d t1).2.quality_to_production,
        r.cabinet_id = d.cabinet_id → r.status = "completed") ∧
    (ptqInFlight
        (add_production_handback
          (add_production_handback db d t1).2 d t2).2.production_to_quality
        d.cabinet_id).length
      = (ptqInFlight db.production_to_quality d.cabinet_id).length + 2 := by
  refine ⟨rfl, rfl, rfl, rfl, ?_, ?_⟩
  · intro r hr hcab
    simp only [add_production_handback, List.mem_map] at hr
    obtain ⟨s, _, rfl⟩ := hr
    by_cases h : s.cabinet_id == d.cabinet_id
    · simp [h]
    · simp only [h, if_neg, Bool.false_eq_true, not_false_eq_true,
        if_false] at hcab ⊢
      exact absurd hcab (by simpa using h)
  · simp [add_production_handback, ptqInFlight, List.filter_append,
      handbackRow]

/-- Witness for C9: a hand-back into the empty database (no forward row at
all) still succeeds. -/
theorem c9_witness :
    (add_production_handback HandoverDB.empty hbCE "t1").1 = true :=
  (c9_handback_unguarded HandoverDB.empty hbCE "t1" "t2").1

/-- C10: `update_production_status` succeeds iff some forward row for the
cabinet exists, rewrites the status of every such row regardless of its
current status (no state-machine check), sets `received_by`/`received_date`
only when previously unset for `in_progress`, and overwrites
`completed_by`/`completed_date` unconditionally for `completed`. -/
theorem c10_update_production_status_spec (db : HandoverDB)
    (cab status : String) (user : Option String) (now : String) :
    ((update_production_status db cab status user now).1 = true ↔
      ∃ r ∈ db.quality_to_production, r.cabinet_id = cab) ∧
    (update_production_status db cab status user now).2.production_to_quality
      = db.production_to_quality ∧
    (update_production_status db cab status user now).2.quality_to_production
      = db.quality_to_production.map (fun r =>
          if r.cabinet_id == cab then applyProductionStatus status user now r
          else r) ∧
    (∀ r : QtpRow, (applyProductionStatus status user now r).status = status ∧
        (applyProductionStatus status user now r).cabinet_id
          = r.cabinet_id) ∧
    (∀ r : QtpRow,
        (applyProductionStatus "in_progress" user now r).received_by
          = r.received_by.orElse (fun _ => user) ∧
        (applyProductionStatus "in_progress" user now r).received_date
          = r.received_date.orElse (fun _ => some now) ∧
        (applyProductionStatus "in_progress" user now r).completed_by
          = r.completed_by ∧
        (applyProductionStatus "in_progress" user now r).completed_date
          = r.completed_date) ∧
    (∀ r : QtpRow,
        (applyProductionStatus "completed" user now r).completed_by = user ∧
        (applyProductionStatus "completed" user now r).completed_date
          = some now ∧
        (applyProductionStatus "completed" user now r).received_by
          = r.received_by ∧
        (applyProductionStatus "completed" user now r).received_date
          = r.received_date) := by
  refine ⟨?_, rfl, rfl, ?_, ?_, ?_⟩
  · simp [update_production_status, ← List.countP_eq_length_filter,
      List.countP_pos_iff]
  · intro r
    by_cases h1 : status == "in_progress" <;>
      by_cases h2 : status == "completed" <;>
        simp [applyProductionStatus, h1, h2]
  · intro r
    simp [applyProductionStatus]
  · intro r
    simp [applyProductionStatus]

/-- Witness for C10 at a concrete database. -/
theorem c10_witness :
    (update_production_status dbW "CAB-1" "in_progress" (some "bob") "t1").1
      = true :=
  (c10_update_production_status_spec dbW "CAB-1" "in_progress"
      (some "bob") "t1").1.mpr
    ⟨qualityRow hdW "t0", by simp [dbW], rfl⟩

/-- C5: `add_quality_handover` fails and inserts nothing when an in-flight
row for the cabinet exists; starting with no row for the cabinet, a first
call succeeds and an immediately repeated call fails, leaving exactly one
forward row for that cabinet. -/
theorem c5_submit_forward_guard (db : HandoverDB) (d : HandoverData)
    (t1 t2 : String) :
    ((∃ r ∈ db.quality_to_production, r.cabinet_id = d.cabinet_id ∧
        (r.status = "pending" ∨ r.status = "in_progress")) →
      add_quality_handover db d t1 = (false, db)) ∧
    ((∀ r ∈ db.quality_to_production, r.cabinet_id ≠ d.cabinet_id) →
      (add_quality_handover db d t1).1 = true ∧
      add_quality_handover (add_quality_handover db d t1).2 d t2
        = (false, (add_quality_handover db d t1).2) ∧
      ((add_quality_handover db d t1).2.quality_to_production.filter
          (fun r => r.cabinet_id == d.cabinet_id)).length = 1) := by
  constructor
  · rintro ⟨r, hr, hcab, hst⟩
    have hany : db.quality_to_production.any
        (fun r => r.cabinet_id == d.cabinet_id && qtpNonTerminal r.status)
          = true :=
      List.any_eq_true.mpr ⟨r, hr, by
        simp [hcab, qtpNonTerminal_eq_true.mpr hst]⟩
    simp [add_quality_handover, hany]
  · intro h
    have hany : db.quality_to_production.any
        (fun r => r.cabinet_id == d.cabinet_id && qtpNonTerminal r.status)
          = false := by
      rw [List.any_eq_false]
      intro r hr
      simp [h r hr]
    have h1 : add_quality_handover db d t1 =
        (true, { db with quality_to_production :=
          db.quality_to_production ++ [qualityRow d t1] }) := by
      simp [add_quality_handover, hany]
    have hany2 : ((db.quality_to_production ++ [qualityRow d t1]).any
        (fun r => r.cabinet_id == d.cabinet_id && qtpNonTerminal r.status))
          = true :=
      List.any_eq_true.mpr ⟨qualityRow d t1, by simp,
        by simp [qualityRow, qtpNonTerminal]⟩
    refine ⟨by rw [h1], ?_, ?_⟩
    · rw [h1]
      simp [add_quality_handover, hany2]
    · rw [h1]
      have hnil : db.quality_to_production.filter
          (fun r => r.cabinet_id == d.cabinet_id) = [] := by
        rw [List.filter_eq_nil_iff]
        intro r hr
        simp [h r hr]
      simp [List.filter_append, hnil, qualityRow]

/-- Witness for C5: repeated submit from the empty store. -/
theorem c5_witness :
    (add_quality_handover
        (add_quality_handover HandoverDB.empty hdW "t1").2 hdW "t2").1
      = false := by
  have h := (c5_submit_forward_guard HandoverDB.empty hdW "t1" "t2").2
    (by intro r hr; simp [HandoverDB.empty] at hr)
  rw [h.2.1]

/-- C1 counterexample: two successive `add_production_handback` calls leave
two non-terminal (`pending`) rows for the same cabinet in the
`production_to_quality` table — the claimed invariant fails there because
that insert performs no existence check. -/
theorem c1_counterexample :
    ¬ ((ptqInFlight
        (runHandoffOps
          [.handback hbCE "t1", .handback hbCE "t2"]).production_to_quality
        "CAB-1").length ≤ 1) := by
  decide

theorem add_quality_preserves_qtpInFlight (db : HandoverDB)
    (d : HandoverData) (now cab : String)
    (h : (qtpInFlight db.quality_to_production cab).length ≤ 1) :
    (qtpInFlight
      (add_quality_handover db d now).2.quality_to_production cab).length
        ≤ 1 := by
  by_cases hg : db.quality_to_production.any
      (fun r => r.cabinet_id == d.cabinet_id && qtpNonTerminal r.status)
  · simpa [add_quality_handover, hg] using h
  · simp only [add_quality_handover, hg, Bool.false_eq_true, if_false]
    rw [qtpInFlight, List.filter_append]
    have hg2 := List.any_eq_false.mp (Bool.eq_false_iff.mpr hg)
    by_cases hc : cab = d.cabinet_id
    · have hnil : db.quality_to_production.filter
          (fun r => r.cabinet_id == cab && qtpNonTerminal r.status) = [] := by
        rw [List.filter_eq_nil_iff]
        intro r hr
        rw [hc]
        exact hg2 r hr
      rw [hnil]
      simpa using le_trans (List.length_filter_le _ _) (by simp)
    · have hrow : (List.filter
          (fun r => r.cabinet_id == cab && qtpNonTerminal r.status)
          [qualityRow d now]) = [] := by
        simp [qualityRow, beq_eq_false_iff_ne.mpr (Ne.symm hc)]
      rw [hrow]
      simpa [qtpInFlight] using h

theorem add_handback_preserves_qtpInFlight (db : HandoverDB)
    (d : HandbackData) (now cab : String)
    (h : (qtpInFlight db.quality_to_production cab).length ≤ 1) :
    (qtpInFlight
      (add_production_handback db d now).2.quality_to_production cab).length
        ≤ 1 := by
  simp only [add_production_handback]
  rw [qtpInFlight] at h ⊢
  rw [← List.countP_eq_length_filter] at h ⊢
  rw [List.countP_map]
  refine le_trans (List.countP_mono_left ?_) h
  intro r _ hp
  by_cases hm : r.cabinet_id == d.cabinet_id
  · simp [Function.comp, hm, qtpNonTerminal] at hp
  · simpa [Function.comp, hm] using hp

/-- C1 amended: the at-most-one-in-flight-row invariant holds for the
`quality_to_production` table under any sequence of inserts from the empty
store. -/
theorem c1_amended_qtp_invariant (ops : List HandoffOp) (cab : String) :
    (qtpInFlight (runHandoffOps ops).quality_to_production cab).length
      ≤ 1 := by
  suffices h : ∀ db : HandoverDB,
      (∀ c, (qtpInFlight db.quality_to_production c).length ≤ 1) →
      ∀ c, (qtpInFlight
        ((ops.foldl HandoffOp.apply db).quality_to_production) c).length
          ≤ 1 by
    exact h HandoverDB.empty
      (by intro c; simp [HandoverDB.empty, qtpInFlight]) cab
  induction ops with
  | nil => intro db h c; exact h c
  | cons op rest ih =>
    intro db h c
    refine ih (HandoffOp.apply db op) ?_ c
    intro c2
    cases op with
    | quality d now =>
      exact add_quality_preserves_qtpInFlight db d now c2 (h c2)
    | handback d now =>
      exact add_handback_preserves_qtpInFlight db d now c2 (h c2)

/-! ## Next-serial claims -/

/-- Evaluation of the serial-scan loop on a column that holds the integer
list `L` from `row` on and is empty right after it: the loop returns the
last value of `L` (the accumulator if `L` is empty) plus one. -/
theorem nextSrLoop_eval (maxRow : Nat) :
    ∀ (L : List Int) (row : Nat) (last : Int) (cells : Nat → Option CellVal),
      (∀ i, i < L.length → cells (row + i) = (L.get? i).map CellVal.i) →
      cells (row + L.length) = none →
      row + L.length ≤ maxRow + 5 →
      nextSrLoop cells maxRow row last = L.getLastD last + 1 := by
  intro L
  induction L with
  | nil =>
    intro row last cells _ hend hbound
    have h0 : cells row = none := by simpa using hend
    rw [nextSrLoop]
    simp [show row ≤ maxRow + 5 by omega, h0]
  | cons a L ih =>
    intro row last cells hcells hend hbound
    have h0 : cells row = some (CellVal.i a) := by
      simpa using hcells 0 (by simp)
    rw [nextSrLoop]
    simp only [show row ≤ maxRow + 5 by omega, if_true, h0]
    rw [List.getLastD_cons]
    have hrec := ih (row + 1) a cells
      (fun i hi => by
        have := hcells (i + 1) (by simpa using Nat.succ_lt_succ hi)
        simpa [show row + (i + 1) = row + 1 + i by omega] using this)
      (by simpa [show row + (L.length + 1) = row + 1 + L.length by omega]
        using hend)
      (by simp only [List.length_cons] at hbound; omega)
    simpa [CellVal.pyInt?] using hrec

/-- The column `srColOf start L` holds `L` at rows `start + i`. -/
theorem srColOf_get (start : Nat) (L : List Int) (i : Nat) :
    srColOf start L (start + i) = (L.get? i).map CellVal.i := by
  unfold srColOf
  simp [show ¬ (start + i < start) by omega, Nat.add_sub_cancel_left]

/-- The column `srColOf start L` is empty right after the data block. -/
theorem srColOf_end (start : Nat) (L : List Int) :
    srColOf start L (start + L.length) = none := by
  unfold srColOf
  simp [show ¬ (start + L.length < start) by omega,
    Nat.add_sub_cancel_left, List.get?_eq_none]

/-- C2 counterexample: on a sheet whose serial column reads 5 then 3, the
scan returns `3 + 1 = 4`, not `max(existing) + 1 = 6` — the loop keeps the
last parsed serial (`last_sr_no`), not the maximum. -/
theorem c2_counterexample :
    get_next_sr_no (srColOf 8 [5, 3]) 10 = 4 ∧
    ([5, 3].foldr max 0 : Int) + 1 = 6 ∧
    get_next_sr_no (srColOf 8 [5, 3]) 10 ≠ 6 := by
  have h : get_next_sr_no (srColOf 8 [5, 3]) 10 = 4 := by
    rw [get_next_sr_no]
    have := nextSrLoop_eval 10 [5, 3] 8 0 (srColOf 8 [5, 3])
      (fun i _ => srColOf_get 8 [5, 3] i) (srColOf_end 8 [5, 3]) (by norm_num)
    simpa using this
  refine ⟨h, by decide, by rw [h]; decide⟩

/-- C2 amended: both scans return the serial of the last row before the
first empty cell plus one (1 when the first scanned cell is already empty),
the Quality scan starting at row 8 and the Production scan at row 9 — on a
sheet whose only serial sits in row 8 the two differ (8 versus 1). -/
theorem c2_next_serial_spec (L : List Int) :
    get_next_sr_no (srColOf 8 L) (8 + L.length) = L.getLastD 0 + 1 ∧
    getnextsr (srColOf 9 L) (9 + L.length) = L.getLastD 0 + 1 ∧
    get_next_sr_no (srColOf 8 [7]) 8 = 8 ∧
    getnextsr (srColOf 8 [7]) 8 = 1 := by
  refine ⟨?_, ?_, ?_, ?_⟩
  · exact nextSrLoop_eval (8 + L.length) L 8 0 (srColOf 8 L)
      (fun i _ => srColOf_get 8 L i) (srColOf_end 8 L) (by omega)
  · exact nextSrLoop_eval (9 + L.length) L 9 0 (srColOf 9 L)
      (fun i _ => srColOf_get 9 L i) (srColOf_end 9 L) (by omega)
  · have := nextSrLoop_eval 8 [7] 8 0 (srColOf 8 [7])
      (fun i _ => srColOf_get 8 [7] i) (srColOf_end 8 [7]) (by norm_num)
    simpa [get_next_sr_no] using this
  · have := nextSrLoop_eval 8 [] 9 0 (srColOf 8 [7])
      (fun i hi => by simp at hi) (by rfl) (by norm_num)
    simpa [getnextsr] using this

/-! ## Rotation round-trip claim -/

/-- The exact round trip behind C3: composing the transform for a rotation
with the transform for its geometric inverse (page dimensions swapped for
90° and 270°) is the identity. -/
theorem rotation_round_trip_exact (r : Int) (w h x y : ℚ)
    (hr : r = 0 ∨ r = 90 ∨ r = 180 ∨ r = 270) :
    transform_point_for_rotation (inverseRotation r)
      (if r = 90 ∨ r = 270 then h else w)
      (if r = 90 ∨ r = 270 then w else h)
      (transform_point_for_rotation r w h (x, y)) = (x, y) := by
  rcases hr with rfl | rfl | rfl | rfl <;>
    simp [transform_point_for_rotation, inverseRotation, Prod.ext_iff]

/-- C3: for a point inside the page and a cardinal rotation, applying the
rotation transform and then the transform of the geometrically inverse
rotation (with swapped page dimensions for 90°/270°) returns the original
point within tolerance `1e-6` (in fact exactly). -/
theorem c3_rotation_round_trip (r : Int) (w h x y : ℚ)
    (hr : r = 0 ∨ r = 90 ∨ r = 180 ∨ r = 270)
    (_hx0 : 0 ≤ x) (_hxw : x ≤ w) (_hy0 : 0 ≤ y) (_hyh : y ≤ h) :
    |(transform_point_for_rotation (inverseRotation r)
        (if r = 90 ∨ r = 270 then h else w)
        (if r = 90 ∨ r = 270 then w else h)
        (transform_point_for_rotation r w h (x, y))).1 - x| ≤ 1 / 1000000 ∧
    |(transform_point_for_rotation (inverseRotation r)
        (if r = 90 ∨ r = 270 then h else w)
        (if r = 90 ∨ r = 270 then w else h)
        (transform_point_for_rotation r w h (x, y))).2 - y| ≤ 1 / 1000000 := by
  rw [rotation_round_trip_exact r w h x y hr]
  norm_num

/-- Witness for C3 at rotation 90 on a 2 × 3 page. -/
theorem c3_witness :
    |(transform_point_for_rotation (inverseRotation 90)
        (if (90 : Int) = 90 ∨ (90 : Int) = 270 then (3 : ℚ) else 2)
        (if (90 : Int) = 90 ∨ (90 : Int) = 270 then (2 : ℚ) else 3)
        (transform_point_for_rotation 90 2 3 (1, 1))).1 - 1| ≤ 1 / 1000000 :=
  (c3_rotation_round_trip 90 2 3 1 1 (by norm_num) (by norm_num)
    (by norm_num) (by norm_num) (by norm_num)).1

/-! ## Interphase inference claim -/

/-- The strict-improvement accumulation of `get_status_from_interphase`
computes the maximum (with 0) of the completed reference numbers. -/
theorem interphaseHighest_eq_fold_max (rows : List InterRow) :
    interphaseHighest rows = (completedRefs rows).foldl max 0 := by
  suffices h : ∀ acc : Int,
      rows.foldl
        (fun h r =>
          match interCompletedRef r with
          | some n => if h < n then n else h
          | none => h) acc
        = (completedRefs rows).foldl max acc from h 0
  induction rows with
  | nil => intro acc; rfl
  | cons r rest ih =>
    intro acc
    rw [completedRefs, List.filterMap_cons]
    cases hr : interCompletedRef r with
    | none => simpa [List.foldl_cons, hr] using ih acc
    | some n =>
      have hmax : (if acc < n then n else acc) = max acc n := by
        rcases lt_or_le acc n with hlt | hle
        · simp [hlt, max_eq_right hlt.le]
        · simp [not_lt.mpr hle, max_eq_left hle]
      simp only [List.foldl_cons, hr, hmax]
      exact ih (max acc n)

/-- C7: the Quality-role Interphase inference derives the phase of the band
containing the *highest* completed reference number (sheet 1,2,5 yields the
band of 5, `mechanical_assembly`, not the band of 1), with the documented
bands, and defaults to `quality_inspection` when nothing is completed. -/
theorem c7_interphase_highest_band :
    (∀ rows : List InterRow,
      get_status_from_interphase rows
        = refBand ((completedRefs rows).foldl max 0)) ∧
    (∀ rows : List InterRow, completedRefs rows = [] →
      get_status_from_interphase rows = "quality_inspection") ∧
    get_status_from_interphase sheet125 = "mechanical_assembly" ∧
    refBand 5 = "mechanical_assembly" ∧
    refBand 1 = "project_info_sheet" ∧
    ("mechanical_assembly" : String) ≠ "project_info_sheet" ∧
    (∀ n : Int, 1 ≤ n → n ≤ 2 → refBand n = "project_info_sheet") ∧
    (∀ n : Int, 3 ≤ n → n ≤ 9 → refBand n = "mechanical_assembly") ∧
    (∀ n : Int, 10 ≤ n → n ≤ 18 → refBand n = "component_assembly") ∧
    (∀ n : Int, 19 ≤ n → n ≤ 26 → refBand n = "final_assembly") ∧
    (∀ n : Int, 27 ≤ n → refBand n = "final_documentation") := by
  refine ⟨?_, ?_, ?_, by decide, by decide, by decide, ?_, ?_, ?_, ?_, ?_⟩
  · intro rows
    rw [get_status_from_interphase, interphaseHighest_eq_fold_max]
  · intro rows hnil
    rw [get_status_from_interphase, interphaseHighest_eq_fold_max, hnil]
    rfl
  · decide
  · intro n h1 h2
    rw [refBand, if_neg (by omega), if_pos (by omega)]
  · intro n h1 h2
    rw [refBand, if_neg (by omega), if_neg (by omega), if_pos (by omega)]
  · intro n h1 h2
    rw [refBand, if_neg (by omega), if_neg (by omega), if_neg (by omega),
      if_pos (by omega)]
  · intro n h1 h2
    rw [refBand, if_neg (by omega), if_neg (by omega), if_neg (by omega),
      if_neg (by omega), if_pos (by omega)]
  · intro n h1
    rw [refBand, if_neg (by omega), if_neg (by omega), if_neg (by omega),
      if_neg (by omega), if_neg (by omega), if_pos (by omega)]

/-- Witness for C7: the band conjunct applied at 5. -/
theorem c7_witness : refBand 5 = "mechanical_assembly" :=
  c7_interphase_highest_band.2.2.2.2.2.2.2.1 5 (by norm_num) (by norm_num)

/-! ## Aggregate sync claim -/

/-- C6: when the synced cabinet's existing status is an explicit-transition
value, the sync rewrites only the counts, the paths and the timestamp and
writes the status back unchanged; and Interphase inference can change a
status only when the flag is set and the current status is one of the
workflow-inference values. -/
theorem c6_sync_preserves_explicit_status (db : List CabinetRow)
    (cab project so : String) (st : SyncStats) (flag : Bool)
    (inter : Option String) (now excel : String) (loc : Option String)
    (row : CabinetRow)
    (hfind : db.find? (fun r => r.cabinet_id == cab) = some row)
    (huniq : ∀ r ∈ db, r.cabinet_id = cab → r.status = row.status)
    (hexp : row.status ∈ explicit_statuses) :
    (sync_manager_stats_only db cab project so st flag inter now excel loc
      = db.map (fun r =>
          if r.cabinet_id == cab then
            applySyncStats st r.status now excel loc r
          else r)) ∧
    (∀ (r : CabinetRow) (s : String),
        (applySyncStats st s now excel loc r).cabinet_id = r.cabinet_id ∧
        (applySyncStats st s now excel loc r).project_name = r.project_name ∧
        (applySyncStats st s now excel loc r).sales_order_no
          = r.sales_order_no ∧
        (applySyncStats st s now excel loc r).created_date = r.created_date ∧
        (applySyncStats st r.status now excel loc r).status = r.status ∧
        (applySyncStats st s now excel loc r).total_pages = st.total_pages ∧
        (applySyncStats st s now excel loc r).total_punches
          = st.total_punches ∧
        (applySyncStats st s now excel loc r).open_punches
          = st.open_punches ∧
        (applySyncStats st s now excel loc r).closed_punches
          = st.closed_punches ∧
        (applySyncStats st s now excel loc r).last_updated = now ∧
        (applySyncStats st s now excel loc r).excel_path = excel) ∧
    (∀ (flag2 : Bool) (cur : String) (inter2 : Option String),
        syncNewStatus flag2 cur inter2 ≠ cur →
        flag2 = true ∧ workflow_statuses.contains cur = true) := by
  refine ⟨?_, ?_, ?_⟩
  · have hdisj : row.status = "handed_to_production" ∨
        row.status = "in_progress" ∨
        row.status = "being_closed_by_quality" ∨
        row.status = "closed" := by
      simpa [explicit_statuses] using hexp
    have hw : workflow_statuses.contains row.status = false := by
      rcases hdisj with h | h | h | h <;> rw [h] <;> decide
    have hstat : syncNewStatus flag row.status inter = row.status := by
      rw [syncNewStatus.eq_def, hw, Bool.and_false]
      rfl
    rw [sync_manager_stats_only.eq_def, hfind]
    simp only [hstat]
    refine List.map_congr_left ?_
    intro r hr
    by_cases hm : r.cabinet_id == cab
    · simp only [hm, if_true]
      rw [huniq r hr (by simpa using hm)]
    · simp [hm]
  · intro r s
    simp [applySyncStats]
  · intro flag2 cur inter2 hne
    by_cases hcond : (flag2 && workflow_statuses.contains cur) = true
    · exact ⟨(Bool.and_eq_true _ _).mp hcond |>.1,
        (Bool.and_eq_true _ _).mp hcond |>.2⟩
    · exfalso
      apply hne
      rw [syncNewStatus.eq_def, Bool.eq_false_iff.mpr hcond]
      rfl

/-- Witness for C6: syncing a cabinet whose aggregate sits in
`handed_to_production` leaves that status in place. -/
theorem c6_witness :
    sync_manager_stats_only [cabRowW] "CAB-1" "P1" "SO-7" statsW true
        (some "mechanical_assembly") "t1" "b.xlsx" none
      = [applySyncStats statsW cabRowW.status "t1" "b.xlsx" none cabRowW] := by
  have h := (c6_sync_preserves_explicit_status [cabRowW] "CAB-1" "P1" "SO-7"
    statsW true (some "mechanical_assembly") "t1" "b.xlsx" none cabRowW
    (by rfl)
    (by intro r hr _; simp at hr; rw [hr])
    (by rw [show cabRowW.status = "handed_to_production" from rfl]; decide)).1
  rw [h]
  simp [cabRowW]

/-! ## Punch-append serial claim -/

/-- Setting an index back to the element already there does not change the
list. -/
theorem list_set_get_self {α : Type _} :
    ∀ (l : List α) (i : Nat) (a : α), l.get? i = some a → l.set i a = l := by
  intro l
  induction l with
  | nil => intro i a h; simp at h
  | cons x xs ih =>
    intro i a h
    cases i with
    | zero =>
      simp only [List.get?_cons_zero, Option.some.injEq] at h
      rw [← h]
      rfl
    | succ j =>
      simp only [List.get?_cons_succ] at h
      show x :: xs.set j a = x :: xs
      rw [ih j a h]

/-- An append onto a sheet whose serial column reads `1..n` yields a sheet
whose serial column reads `1..(n+1)`: the write lands on the first free row
and carries the previous serial plus one. -/
theorem srColumnOk_append (rows : List PunchRow) (n : Nat)
    (a b c d e : String) (h : srColumnOk rows n) :
    srColumnOk (log_error_direct rows a b c d e).1 (n + 1) := by
  have hlen : rows.length = n := by
    have := congrArg List.length h
    simpa using this
  subst hlen
  have hnone : ∀ r ∈ rows, (fun r : PunchRow => r.sr.isNone) r = false := by
    intro r hr
    show r.sr.isNone = false
    have hmem : r.sr ∈ rows.map (fun r => r.sr) :=
      List.mem_map_of_mem _ hr
    rw [h] at hmem
    rw [List.mem_map] at hmem
    obtain ⟨i, _, hi⟩ := hmem
    rw [← hi]
    rfl
  have hidx : rows.findIdx (fun r => r.sr.isNone) = rows.length :=
    List.findIdx_eq_length.mpr hnone
  by_cases hz : rows.length = 0
  · have hnil : rows = [] := List.length_eq_zero.mp hz
    subst hnil
    rfl
  · have hlt : rows.length - 1 < rows.length := by omega
    have hprev : (rows.get? (rows.length - 1)).bind (fun r => r.sr)
        = some (CellVal.i (Int.ofNat (rows.length - 1) + 1)) := by
      have h1 : (rows.map (fun r => r.sr))[rows.length - 1]?
          = some (some (CellVal.i (Int.ofNat (rows.length - 1) + 1))) := by
        rw [h, List.getElem?_map, List.getElem?_range hlt]
        rfl
      rw [List.getElem?_map] at h1
      cases hrg : rows[rows.length - 1]? with
      | none => rw [hrg] at h1; simp at h1
      | some rr =>
        rw [hrg, Option.map_some'] at h1
        rw [List.get?_eq_getElem?, hrg]
        simpa using h1
    have hgd : rows.getD rows.length blankPunchRow = blankPunchRow := by
      rw [List.getD_eq_getElem?_getD, List.getElem?_eq_none (le_refl _)]
      rfl
    rw [srColumnOk, log_error_direct]
    simp only [hidx, hz, if_false, lt_self_iff_false, hprev, hgd,
      CellVal.pyInt?]
    have hcast : Int.ofNat (rows.length - 1) + 1 + 1
        = Int.ofNat rows.length + 1 := by
      obtain ⟨m, hm⟩ : ∃ m, rows.length = m + 1 := ⟨rows.length - 1, by omega⟩
      rw [hm]
      simp [Int.ofNat_succ]
    rw [List.map_append, h, List.range_succ, List.map_append, hcast]
    rfl

/-- Closing a punch does not touch the serial column. -/
theorem srColumnOk_close (rows : List PunchRow) (n : Nat) (i : Nat)
    (name date : String) (h : srColumnOk rows n) :
    srColumnOk (close_punch rows i name date) n := by
  rw [close_punch.eq_def]
  cases hrg : rows.get? i with
  | none => exact h
  | some r =>
    rw [srColumnOk, List.map_set]
    have hset : (rows.map (fun r => r.sr)).set i r.sr
        = rows.map (fun r => r.sr) :=
      list_set_get_self _ i r.sr (by
        rw [List.get?_eq_getElem?] at hrg ⊢
        rw [List.getElem?_map, hrg]
        rfl)
    have hs : ({ r with
                 closed_name := some (CellVal.s name),
                 closed_date := some (CellVal.s date) } : PunchRow).sr
        = r.sr := rfl
    rw [hs, hset, h]

/-- C8: over any operation sequence on an initially empty punch sheet, the
serial column of the resulting sheet reads exactly `1, 2, ..., N` in order
(`N` the number of appends) — no gaps, no repeats — `mark_closed`
interleavings notwithstanding. -/
theorem c8_punch_serials (ops : List PunchOp) :
    (runPunchOps ops).map (fun r => r.sr)
      = (List.range (countAppends ops)).map
          (fun i => some (CellVal.i (Int.ofNat i + 1))) := by
  suffices hrun : ∀ (ops : List PunchOp) (rows : List PunchRow) (n : Nat),
      srColumnOk rows n →
      srColumnOk (ops.foldl PunchOp.apply rows) (n + countAppends ops) by
    have := hrun ops [] 0 (by rw [srColumnOk]; rfl)
    simpa [runPunchOps, srColumnOk] using this
  intro ops
  induction ops with
  | nil =>
    intro rows n h
    simpa [countAppends] using h
  | cons op rest ih =>
    intro rows n h
    rw [List.foldl_cons]
    cases op with
    | append a b c d e =>
      have h2 := ih ((log_error_direct rows a b c d e).1) (n + 1)
        (srColumnOk_append rows n a b c d e h)
      have hcount : countAppends (PunchOp.append a b c d e :: rest)
          = countAppends rest + 1 := by
        simp [countAppends, List.countP_cons]
      rw [hcount, show n + (countAppends rest + 1)
        = (n + 1) + countAppends rest by omega]
      exact h2
    | close i nm dt =>
      have h2 := ih (close_punch rows i nm dt) n
        (srColumnOk_close rows n i nm dt h)
      have hcount : countAppends (PunchOp.close i nm dt :: rest)
          = countAppends rest := by
        simp [countAppends, List.countP_cons]
      rw [hcount]
      exact h2

/-! ## Annotation-binder claim -/

theorem foldl_max_of_le (l : List ℚ) : ∀ a : ℚ,
    (∀ s ∈ l, s ≤ a) → l.foldl max a = a := by
  induction l with
  | nil => intro a _; rfl
  | cons x xs ih =>
    intro a h
    rw [List.foldl_cons, max_eq_left (h x (by simp))]
    exact ih a (fun s hs => h s (by simp [hs]))

theorem le_foldl_max (l : List ℚ) : ∀ a : ℚ, a ≤ l.foldl max a := by
  induction l with
  | nil => intro a; exact le_refl a
  | cons x xs ih =>
    intro a
    rw [List.foldl_cons]
    exact le_trans (le_max_left a x) (ih (max a x))

theorem mem_le_foldl_max (l : List ℚ) : ∀ (a s : ℚ),
    s ∈ l → s ≤ l.foldl max a := by
  induction l with
  | nil => intro a s hs; simp at hs
  | cons x xs ih =>
    intro a s hs
    rw [List.foldl_cons]
    rcases List.mem_cons.mp hs with rfl | hs2
    · exact le_trans (le_max_right a s) (le_foldl_max xs (max a s))
    · exact ih (max a x) s hs2

/-- The serial loop, on a block of rows that all carry a serial and fit
under the row cap, returns exactly the first row whose serial matches. -/
theorem srLoop_eq_findIdx (query : CellVal) :
    ∀ (rows : List SheetRow) (row : Nat),
      (∀ r ∈ rows, r.sr.isSome) →
      row + rows.length ≤ 2001 →
      srLoop query rows row
        = (List.findIdx? (srMatchesRow query) rows).map (fun i => row + i) := by
  intro rows
  induction rows with
  | nil =>
    intro row _ _
    simp [srLoop, List.findIdx?_nil]
  | cons r rest ih =>
    intro row hwf hbound
    obtain ⟨c, hc⟩ := Option.isSome_iff_exists.mp (hwf r (by simp))
    have hp : srMatchesRow query r = srMatches c query := by
      simp [srMatchesRow, hc]
    rw [List.findIdx?_cons]
    simp only [srLoop, hc]
    by_cases hm : srMatches c query
    · simp [hm, hp]
    · have hpr : srMatchesRow query r = false := by
        rw [hp]
        exact Bool.eq_false_iff.mpr hm
      by_cases hcap : row + 1 > 2000
      · have hrest : rest = [] := by
          simp only [List.length_cons] at hbound
          exact List.length_eq_zero.mp (by omega)
        subst hrest
        simp [hm, hpr, hcap, List.findIdx?_nil, List.findIdx?_succ]
      · have hrec := ih (row + 1) (fun x hx => hwf x (by simp [hx]))
          (by simp only [List.length_cons] at hbound; omega)
        simp only [hm, Bool.false_eq_true, if_false, hcap, hrec, hpr,
          List.findIdx?_succ]
        cases hfi : List.findIdx? (srMatchesRow query) rest with
        | none => simp [hfi]
        | some j => simp [hfi]; omega

/-- The fuzzy loop never changes its accumulator on a block whose scores do
not strictly exceed the running best. -/
theorem fuzzyLoop_flat (simFn : String → String → ℚ) (q : String) :
    ∀ (rows : List SheetRow) (row : Nat) (bR : Option Nat) (bS : ℚ),
      (∀ r ∈ rows, r.desc.isSome) →
      (∀ r ∈ rows, descScore simFn q r ≤ bS) →
      fuzzyLoop simFn q rows row bR bS = (bR, bS) := by
  intro rows
  induction rows with
  | nil => intro row bR bS _ _; rfl
  | cons r rest ih =>
    intro row bR bS hwf hle
    obtain ⟨txt, htxt⟩ := Option.isSome_iff_exists.mp (hwf r (by simp))
    have hs : descScore simFn q r
        = simFn (pyLower (pyStrip q)) (pyLower (pyStrip txt.pyStr)) := by
      simp [descScore, htxt]
    have hnlt : ¬ (bS < simFn (pyLower (pyStrip q))
        (pyLower (pyStrip txt.pyStr))) := by
      rw [← hs]
      exact not_lt.mpr (hle r (by simp))
    simp only [fuzzyLoop, htxt, hnlt, if_false]
    by_cases hcap : row + 1 > 2000
    · simp [hcap]
    · simp only [hcap, if_false]
      exact ih (row + 1) bR bS (fun x hx => hwf x (by simp [hx]))
        (fun x hx => hle x (by simp [hx]))

/-- The fuzzy loop, on a block of described rows fitting under the row cap
that somewhere strictly beats the running best, returns the maximum score
together with the first row attaining it. -/
theorem fuzzyLoop_argmax (simFn : String → String → ℚ) (q : String) :
    ∀ (rows : List SheetRow) (row : Nat) (bR : Option Nat) (bS : ℚ),
      (∀ r ∈ rows, r.desc.isSome) →
      row + rows.length ≤ 2001 →
      (∃ r ∈ rows, bS < descScore simFn q r) →
      fuzzyLoop simFn q rows row bR bS
        = (some (row + (rows.map (descScore simFn q)).findIdx
              (fun s => s == (rows.map (descScore simFn q)).foldl max bS)),
           (rows.map (descScore simFn q)).foldl max bS) := by
  intro rows
  induction rows with
  | nil => intro row bR bS _ _ hex; simp at hex
  | cons r rest ih =>
    intro row bR bS hwf hbound hex
    obtain ⟨txt, htxt⟩ := Option.isSome_iff_exists.mp (hwf r (by simp))
    have hs : simFn (pyLower (pyStrip q)) (pyLower (pyStrip txt.pyStr))
        = descScore simFn q r := by
      simp [descScore, htxt]
    have hwfr : ∀ x ∈ rest, x.desc.isSome := fun x hx => hwf x (by simp [hx])
    have hbound2 : row + 1 + rest.length ≤ 2001 := by
      simp only [List.length_cons] at hbound; omega
    simp only [fuzzyLoop, htxt, hs, List.map_cons, List.foldl_cons]
    by_cases hlt : bS < descScore simFn q r
    · rw [if_pos hlt, max_eq_right hlt.le]
      by_cases hex2 : ∃ x ∈ rest, descScore simFn q r < descScore simFn q x
      · have hrestne : rest.length ≠ 0 := by
          rintro h0
          rw [List.length_eq_zero.mp h0] at hex2
          simp at hex2
        have hcap : ¬ (row + 1 > 2000) := by omega
        rw [if_neg hcap]
        have hrec := ih (row + 1) (some row) (descScore simFn q r)
          hwfr hbound2 hex2
        rw [hrec]
        obtain ⟨x, hx, hxlt⟩ := hex2
        have hm_gt : descScore simFn q r
            < (rest.map (descScore simFn q)).foldl max
                (descScore simFn q r) :=
          lt_of_lt_of_le hxlt
            (mem_le_foldl_max _ _ _ (List.mem_map_of_mem _ hx))
        have hne : (descScore simFn q r
            == (rest.map (descScore simFn q)).foldl max
                (descScore simFn q r)) = false := by
          simp [hm_gt.ne]
        rw [List.findIdx_cons, hne]
        simp only [cond_false, Prod.mk.injEq, Option.some.injEq]
        exact ⟨by omega, trivial⟩
      · push_neg at hex2
        have hfold : (rest.map (descScore simFn q)).foldl max
            (descScore simFn q r) = descScore simFn q r :=
          foldl_max_of_le _ _ (by
            intro s hs2
            obtain ⟨x, hx, rfl⟩ := List.mem_map.mp hs2
            exact hex2 x hx)
        rw [hfold]
        have hflat : fuzzyLoop simFn q rest (row + 1) (some row)
            (descScore simFn q r) = (some row, descScore simFn q r) :=
          fuzzyLoop_flat simFn q rest (row + 1) (some row) _
            hwfr (fun x hx => hex2 x hx)
        rw [List.findIdx_cons, beq_self_eq_true]
        simp only [cond_true, Nat.add_zero]
        by_cases hcap : row + 1 > 2000
        · rw [if_pos hcap]
        · rw [if_neg hcap, hflat]
    · rw [if_neg hlt, max_eq_left (not_lt.mp hlt)]
      have hex2 : ∃ x ∈ rest, bS < descScore simFn q x := by
        obtain ⟨x, hx, hxlt⟩ := hex
        rcases List.mem_cons.mp hx with rfl | hx2
        · exact absurd hxlt hlt
        · exact ⟨x, hx2, hxlt⟩
      have hrestne : rest.length ≠ 0 := by
        rintro h0
        rw [List.length_eq_zero.mp h0] at hex2
        simp at hex2
      have hcap : ¬ (row + 1 > 2000) := by omega
      rw [if_neg hcap]
      have hrec := ih (row + 1) bR bS hwfr hbound2 hex2
      rw [hrec]
      obtain ⟨x, hx, hxlt⟩ := hex2
      have hm_gt : descScore simFn q r
          < (rest.map (descScore simFn q)).foldl max bS :=
        lt_of_le_of_lt (not_lt.mp hlt)
          (lt_of_lt_of_le hxlt
            (mem_le_foldl_max _ _ _ (List.mem_map_of_mem _ hx)))
      have hne : (descScore simFn q r
          == (rest.map (descScore simFn q)).foldl max bS) = false := by
        simp [hm_gt.ne]
      rw [List.findIdx_cons, hne]
      simp only [cond_false, Prod.mk.injEq, Option.some.injEq]
      exact ⟨by omega, trivial⟩

/-- C4: the binder tries an exact serial match first and returns that row as
`sr_exact`; only without any serial match does it select the best fuzzy
description match — the maximum similarity, first row on ties — accepting it
as `fuzzy_text` only at or above the 0.60 threshold and returning no row
otherwise. -/
theorem c4_find_row_spec (simFn : String → String → ℚ)
    (rows : List SheetRow) (sr_no : CellVal) (punch_text : String)
    (hwf : ∀ r ∈ rows, r.sr.isSome ∧ r.desc.isSome)
    (hlen : rows.length ≤ 1993) :
    (∀ i, List.findIdx? (srMatchesRow sr_no) rows = some i →
      find_row_by_sr_or_text simFn rows sr_no punch_text (3/5)
        = (some (8 + i), 1, some "sr_exact")) ∧
    ((∀ r ∈ rows, srMatchesRow sr_no r = false) →
      (((3 : ℚ)/5 ≤ (rows.map (descScore simFn punch_text)).foldl max 0 →
        find_row_by_sr_or_text simFn rows sr_no punch_text (3/5)
          = (some (8 + (rows.map (descScore simFn punch_text)).findIdx
                (fun s => s ==
                  (rows.map (descScore simFn punch_text)).foldl max 0)),
             (rows.map (descScore simFn punch_text)).foldl max 0,
             some "fuzzy_text")) ∧
       ((rows.map (descScore simFn punch_text)).foldl max 0 < 3/5 →
        find_row_by_sr_or_text simFn rows sr_no punch_text (3/5)
          = (none, (rows.map (descScore simFn punch_text)).foldl max 0,
             none)))) := by
  have hwfs : ∀ r ∈ rows, r.sr.isSome := fun r hr => (hwf r hr).1
  have hwfd : ∀ r ∈ rows, r.desc.isSome := fun r hr => (hwf r hr).2
  have hbound : 8 + rows.length ≤ 2001 := by omega
  have hsr := srLoop_eq_findIdx sr_no rows 8 hwfs hbound
  constructor
  · intro i hi
    rw [find_row_by_sr_or_text, hsr, hi]
    rfl
  · intro hnom
    have hnone : List.findIdx? (srMatchesRow sr_no) rows = none :=
      List.findIdx?_eq_none_iff.mpr hnom
    rw [find_row_by_sr_or_text, hsr, hnone]
    constructor
    · intro hthr
      have hex : ∃ r ∈ rows, (0 : ℚ) < descScore simFn punch_text r := by
        by_contra hno
        push_neg at hno
        have h0 : (rows.map (descScore simFn punch_text)).foldl max 0
            = 0 :=
          foldl_max_of_le _ _ (by
            intro s hs2
            obtain ⟨x, hx, rfl⟩ := List.mem_map.mp hs2
            exact hno x hx)
        rw [h0] at hthr
        norm_num at hthr
      have hfz := fuzzyLoop_argmax simFn punch_text rows 8 none 0
        hwfd hbound hex
      simp only [Option.map_none', hfz]
      rw [if_pos ⟨rfl, hthr⟩]
    · intro hthr
      by_cases hex : ∃ r ∈ rows, (0 : ℚ) < descScore simFn punch_text r
      · have hfz := fuzzyLoop_argmax simFn punch_text rows 8 none 0
          hwfd hbound hex
        simp only [Option.map_none', hfz]
        rw [if_neg (by
          rintro ⟨-, habs⟩
          exact absurd habs (not_le.mpr hthr))]
      · push_neg at hex
        have h0 : (rows.map (descScore simFn punch_text)).foldl max 0
            = 0 :=
          foldl_max_of_le _ _ (by
            intro s hs2
            obtain ⟨x, hx, rfl⟩ := List.mem_map.mp hs2
            exact hex x hx)
        have hfz := fuzzyLoop_flat simFn punch_text rows 8 none 0
          hwfd (fun x hx => hex x hx)
        simp only [Option.map_none', hfz, h0]
        rw [if_neg (by rintro ⟨habs, -⟩; simp at habs)]

/-- Witness for C4: exact serial match on a concrete two-row sheet. -/
theorem c4_witness :
    find_row_by_sr_or_text simFnW rowsW (CellVal.i 2) "paint" (3/5)
      = (some 9, 1, some "sr_exact") := by
  have h := (c4_find_row_spec simFnW rowsW (CellVal.i 2) "paint"
    (by decide) (by norm_num [rowsW])).1 1 (by decide)
  simpa using h

end Inspectron
